import Mathlib

/-!
Verification of the alias-resolution engine of `cleverdict` (cleverdict.py,
version 1.5.1) against its natural-language specification.

The embedding models the Python value universe that the specified behaviour
ranges over (integers, booleans and strings used as dictionary keys and
values), Python `==` on that universe (booleans compare equal to their
numeric values, so `True == 1` and `False == 0`), Python `dict` semantics
as insertion-ordered association lists without duplicate keys, and the
operations of the `CleverDict` class together with the module-level
`name_to_aliases` function and the `expand` context manager.

Integer hashing is modelled as the identity (exact for Python ints of
magnitude below 2^61 - 1 other than -1, which covers every behaviour the
specification describes); a string never compares equal to any integer
under Python `==`, so the hash value chosen for strings is immaterial to
the `name == hash(name)` test in `name_to_aliases`.
-/

/-- Python values used as CleverDict keys and values: integers, booleans
and strings. -/
inductive Py where
  | int (n : Int)
  | bool (b : Bool)
  | str (s : String)
deriving DecidableEq, Repr

/-- Python `==` on this universe: `True == 1`, `False == 0`, strings only
equal strings. -/
def pyEq : Py → Py → Bool
  | Py.int m, Py.int n => m == n
  | Py.int m, Py.bool b => m == (if b then 1 else 0)
  | Py.bool a, Py.int n => (if a then 1 else 0) == n
  | Py.bool a, Py.bool b => a == b
  | Py.str s, Py.str t => s == t
  | _, _ => false

/-- Python `hash` on this universe. `hash(n) = n` for small ints,
`hash(True) = 1`, `hash(False) = 0`. The value for strings is irrelevant:
no string is `==` to an int. -/
def pyHash : Py → Py
  | Py.int n => Py.int n
  | Py.bool b => Py.int (if b then 1 else 0)
  | Py.str _ => Py.int 0

/-- Python `int(...)` on the int-like part of the universe. -/
def pyToInt : Py → Int
  | Py.int n => n
  | Py.bool b => if b then 1 else 0
  | Py.str _ => 0

/-- Python `bool(...)` on the int-like part of the universe. -/
def pyToBool (v : Py) : Bool := pyToInt v != 0

/-- A single-quote character, used by Python `repr` of strings. -/
def pyQuote : String := String.singleton (Char.ofNat 39)

/-- Python `repr` of a value, as used in error messages. -/
def pyRepr : Py → String
  | Py.int n => toString n
  | Py.bool b => if b then ("True") else ("False")
  | Py.str s => pyQuote ++ s ++ pyQuote

/-- The Python reserved keywords (`keyword.kwlist`). -/
def pyKeywords : List String :=
  [("False"), ("None"), ("True"), ("and"), ("as"), ("assert"), ("async"),
   ("await"), ("break"), ("class"), ("continue"), ("def"), ("del"),
   ("elif"), ("else"), ("except"), ("finally"), ("for"), ("from"),
   ("global"), ("if"), ("import"), ("in"), ("is"), ("lambda"),
   ("nonlocal"), ("not"), ("or"), ("pass"), ("raise"), ("return"),
   ("try"), ("while"), ("with"), ("yield")]

/-- Legal first character of a Python identifier (ASCII model). -/
def isIdentStart (c : Char) : Bool := c.isAlpha || c == '_'

/-- Legal continuation character of a Python identifier (ASCII model). -/
def isIdentCont (c : Char) : Bool := c.isAlphanum || c == '_'

/-- Python `str.isidentifier()` on a character list (ASCII model):
non-empty, legal start character, legal continuation characters. -/
def pyIsIdentifier (l : List Char) : Bool :=
  match l with
  | [] => false
  | c :: cs => isIdentStart c && cs.all isIdentCont

/-- Whether the first character of the text is a digit
(`name[0].isdigit()`, false on the empty text). -/
def headIsDigit (l : List Char) : Bool :=
  match l with
  | [] => false
  | c :: _ => c.isDigit

/-- The seeding step of the source normalization:
`"_" + name` when the text is empty, starts with a digit or is a keyword,
otherwise `name` unchanged. -/
def normSeed (s : String) : List Char :=
  if s.data.isEmpty || headIsDigit s.data || pyKeywords.contains s then
    '_' :: s.data
  else
    s.data

/-- One character of the source normalization:
`ch if ("A"[:i] + ch).isidentifier() else "_"`. -/
def normChar (i : Nat) (ch : Char) : Char :=
  if pyIsIdentifier ((['A'].take i) ++ [ch]) then ch else '_'

/-- The character-replacement step of the source normalization, applied to
the seeded text with each character checked at its position. -/
def normJoin (l : List Char) : List Char :=
  l.enum.map (fun p => normChar p.1 p.2)

/-- The full source normalization of a string key (`norm_name` in
`name_to_aliases`). -/
def pyNormalize (s : String) : String :=
  String.mk (normJoin (normSeed s))

/-- `name_to_aliases(name)` with the process-wide flag `CleverDict.expand`
passed explicitly. Returns the list of aliases for `name`, starting with
`name` itself.

In this key universe the `else` branch of the source (reached when
`name != hash(name)`) receives only strings: every int and bool satisfies
`name == hash(name)`. A string equals `str(name)` of itself, so the
str-form alias of the source is never appended for a string. -/
def name_to_aliases (expandFlag : Bool) (name : Py) : List Py :=
  let result := [name]
  if expandFlag then
    if pyEq name (pyHash name) then
      let result := result ++ [Py.str (("_") ++ toString (pyToInt name))]
      if pyEq name (Py.int 0) || pyEq name (Py.int 1) then
        result ++ [Py.str (("_") ++ (if pyToBool name then ("True") else ("False")))]
      else
        result
    else
      match name with
      | Py.str s =>
        let norm := pyNormalize s
        if norm != s then result ++ [Py.str norm] else result
      | _ => result
  else
    result

/-! ### Python dict semantics: insertion-ordered association lists -/

/-- `d[q]` lookup: the first pair whose key is `==` to `q`. -/
def dictLookup : List (Py × Py) → Py → Option Py
  | [], _ => none
  | (k, v) :: rest, q => if pyEq q k then some v else dictLookup rest q

/-- `q in d`. -/
def dictContains (d : List (Py × Py)) (q : Py) : Bool :=
  (dictLookup d q).isSome

/-- `d[k] = v`: replace the value in place (keeping the stored key and its
position) when a `==`-equal key exists, otherwise append. -/
def dictSet : List (Py × Py) → Py → Py → List (Py × Py)
  | [], k, v => [(k, v)]
  | (k0, v0) :: rest, k, v =>
    if pyEq k k0 then (k0, v) :: rest else (k0, v0) :: dictSet rest k v

/-- `del d[k]`: remove the (unique) pair whose key is `==` to `k`. -/
def dictDel : List (Py × Py) → Py → List (Py × Py)
  | [], _ => []
  | (k0, v0) :: rest, k =>
    if pyEq k k0 then rest else (k0, v0) :: dictDel rest k

/-- `list(d.keys())`. -/
def dictKeys (d : List (Py × Py)) : List Py := d.map Prod.fst

/-- Membership of a value in a list of keys, under Python `==`. -/
def pyElem (x : Py) (l : List Py) : Bool := l.any (fun y => pyEq x y)

/-- The keys of `d` are pairwise distinct under Python `==` (true of every
genuine Python dict). -/
def dictKeysNodup : List (Py × Py) → Bool
  | [] => true
  | (k, _) :: rest => rest.all (fun kv => !(pyEq k kv.1)) && dictKeysNodup rest

/-- A list of values pairwise distinct under Python `==`. -/
def pyNodup : List Py → Bool
  | [] => true
  | x :: xs => xs.all (fun y => !(pyEq x y)) && pyNodup xs

/-! ### String-keyed attribute store (`vars(self)` minus `_aliases`) -/

/-- Lookup in a string-keyed association list. -/
def strLookupPy : List (String × Py) → String → Option Py
  | [], _ => none
  | (k, v) :: rest, q => if q == k then some v else strLookupPy rest q

/-- Set in a string-keyed association list (Python dict semantics). -/
def strDictSet : List (String × Py) → String → Py → List (String × Py)
  | [], k, v => [(k, v)]
  | (k0, v0) :: rest, k, v =>
    if k == k0 then (k0, v) :: rest else (k0, v0) :: strDictSet rest k v

/-! ### The CleverDict state -/

/-- Python exceptions raised by the modelled operations. `keyError` carries
the argument object of the `KeyError` (the looked-up key, or a message
string for collision and alias-deletion errors); `attributeError` carries
the payload of the `KeyError` it wraps. -/
inductive PyErr where
  | keyError (arg : Py)
  | attributeError (arg : Py)
deriving DecidableEq, Repr

/-- The state of a `CleverDict` instance: the dict contents (`entries`,
the inherited `dict` storage), the `_aliases` attribute, and the remaining
instance attributes set by `setattr_direct` (`vars(self)` without
`_aliases`). No claim stores a plain value under the attribute name
`_aliases`, which the model keeps as the dedicated `aliases` field. -/
structure CleverDict where
  entries : List (Py × Py)
  aliases : List (Py × Py)
  dvars : List (String × Py)
deriving DecidableEq, Repr

/-- The collision message of `_add_alias`:
`f"{repr(alias)} already an alias for {repr(existing)}"`. -/
def collisionMsg (al tgt : Py) : String :=
  pyRepr al ++ (" already an alias for ") ++ pyRepr tgt

/-- `CleverDict._add_alias(self, name, alias)`: raise on a collision with a
different target, otherwise store `alias -> name`. -/
def _add_alias (d : CleverDict) (name al : Py) : CleverDict × Option PyErr :=
  match dictLookup d.aliases al with
  | some tgt =>
    if !(pyEq tgt name) then
      (d, some (PyErr.keyError (Py.str (collisionMsg al tgt))))
    else
      ({d with aliases := dictSet d.aliases al name}, none)
  | none => ({d with aliases := dictSet d.aliases al name}, none)

/-- The alias-registration loop `for al in ... : self._add_alias(name, al)`,
stopping at the first raised error (which propagates, leaving the
mutations already made in place). -/
def addAliasLoop (d : CleverDict) (name : Py) : List Py → CleverDict × Option PyErr
  | [] => (d, none)
  | al :: rest =>
    match _add_alias d name al with
    | (d1, none) => addAliasLoop d1 name rest
    | (d1, some e) => (d1, some e)

/-- `CleverDict.__setattr__` = `CleverDict.__setitem__`: redirect through
the alias index when the name is a registered alias; otherwise, for a
fresh name, register the name and its derived aliases; then store the
value under the resolved key. -/
def setItem (expandFlag : Bool) (d : CleverDict) (name v : Py) :
    CleverDict × Option PyErr :=
  match dictLookup d.aliases name with
  | some k => ({d with entries := dictSet d.entries k v}, none)
  | none =>
    if dictContains d.entries name then
      ({d with entries := dictSet d.entries name v}, none)
    else
      match addAliasLoop d name (name_to_aliases expandFlag name) with
      | (d1, some e) => (d1, some e)
      | (d1, none) => ({d1 with entries := dictSet d1.entries name v}, none)

/-- `CleverDict.get_key`: resolve a name through `_aliases` or raise
`KeyError(name)`. -/
def get_key (d : CleverDict) (name : Py) : Except PyErr Py :=
  match dictLookup d.aliases name with
  | some k => Except.ok k
  | none => Except.error (PyErr.keyError name)

/-- `CleverDict.__getitem__`: resolve through `get_key`, then read the
underlying dict storage (which raises `KeyError(key)` when the resolved
key has no entry). -/
def getItem (d : CleverDict) (name : Py) : Except PyErr Py :=
  match get_key d name with
  | Except.error e => Except.error e
  | Except.ok k =>
    match dictLookup d.entries k with
    | some v => Except.ok v
    | none => Except.error (PyErr.keyError k)

/-- The argument payload of an exception. -/
def errArg : PyErr → Py
  | PyErr.keyError a => a
  | PyErr.attributeError a => a

/-- `CleverDict.__getattr__`: item access with a `KeyError` re-raised as
`AttributeError` carrying the same payload. -/
def getAttr (d : CleverDict) (name : Py) : Except PyErr Py :=
  match getItem d name with
  | Except.ok v => Except.ok v
  | Except.error e => Except.error (PyErr.attributeError (errArg e))

/-- `CleverDict.__delitem__`: resolve the key, delete the entry from the
underlying dict storage, then purge every alias whose target `==` the
resolved key. -/
def delItem (d : CleverDict) (name : Py) : CleverDict × Option PyErr :=
  match get_key d name with
  | Except.error e => (d, some e)
  | Except.ok k =>
    if dictContains d.entries k then
      ({d with
          entries := dictDel d.entries k,
          aliases := d.aliases.filter (fun kv => !(pyEq kv.2 k))}, none)
    else
      (d, some (PyErr.keyError k))

/-- `CleverDict.add_alias(self, name, alias)` for a scalar alias argument:
resolve `name`, then register each of `name_to_aliases(alias)` (derived
under the current process-wide expand flag) to the resolved key. -/
def add_alias (expandFlag : Bool) (d : CleverDict) (name al : Py) :
    CleverDict × Option PyErr :=
  match get_key d name with
  | Except.error e => (d, some e)
  | Except.ok key => addAliasLoop d key (name_to_aliases expandFlag al)

/-- The "not present" message of `delete_alias`. -/
def notPresentMsg (al : Py) : String := pyRepr al ++ (" not present")

/-- The "key element ... cannot be deleted" message of `delete_alias`. -/
def keyElementMsg (al : Py) : String :=
  ("key element ") ++ pyRepr al ++ (" can") ++ pyQuote ++ ("t be deleted")

/-- The cascade loop of `delete_alias`: for each derived form of the
deleted alias, delete it too when it occurs among the alias-index keys
other than the first one (`list(self._aliases.keys())[1:]`, recomputed at
every step). -/
def deleteCascade (als : List (Py × Py)) : List Py → List (Py × Py)
  | [] => als
  | alx :: rest =>
    if pyElem alx ((dictKeys als).drop 1) then
      deleteCascade (dictDel als alx) rest
    else
      deleteCascade als rest

/-- `CleverDict.delete_alias(self, alias)` for a scalar alias argument:
reject an unregistered alias and a dict key, delete the alias, then
cascade over `name_to_aliases(alias)` under the current expand flag. -/
def delete_alias (expandFlag : Bool) (d : CleverDict) (al : Py) :
    CleverDict × Option PyErr :=
  if !(dictContains d.aliases al) then
    (d, some (PyErr.keyError (Py.str (notPresentMsg al))))
  else if dictContains d.entries al then
    (d, some (PyErr.keyError (Py.str (keyElementMsg al))))
  else
    let als := dictDel d.aliases al
    ({d with aliases := deleteCascade als (name_to_aliases expandFlag al)}, none)

/-- `CleverDict.setattr_direct` for a plain value (every use in the claims
has a name other than `_aliases`, which the model keeps as a field). -/
def setattr_direct (d : CleverDict) (name : String) (v : Py) : CleverDict :=
  {d with dvars := strDictSet d.dvars name v}

/-- The `self.update(_mapping)` loop of `__init__`: successive
`__setitem__` calls, stopping at the first raised error. -/
def updateLoop (expandFlag : Bool) (d : CleverDict) :
    List (Py × Py) → CleverDict × Option PyErr
  | [] => (d, none)
  | (k, v) :: rest =>
    match setItem expandFlag d k v with
    | (d1, none) => updateLoop expandFlag d1 rest
    | (d1, some e) => (d1, some e)

/-- The `for k, v in _aliases.items(): self._add_alias(v, k)` loop of
`__init__`. -/
def aliasArgLoop (d : CleverDict) : List (Py × Py) → CleverDict × Option PyErr
  | [] => (d, none)
  | (k, v) :: rest =>
    match _add_alias d v k with
    | (d1, none) => aliasArgLoop d1 rest
    | (d1, some e) => (d1, some e)

/-- The `for k, v in _vars.items(): self.setattr_direct(k, v)` loop of
`__init__`. -/
def varsLoop (d : CleverDict) : List (String × Py) → CleverDict
  | [] => d
  | (k, v) :: rest => varsLoop (setattr_direct d k v) rest

/-- `CleverDict.__init__(_mapping, _aliases, _vars)`: start from an empty
dict with an empty `_aliases` attribute; run `update` with expansion
forced off when an alias-declaration mapping is given (via the `expand`
context manager, which restores the flag afterwards — see `withExpand`);
then apply the alias declarations and the direct attributes. -/
def cdInit (expandFlag : Bool) (mapping : List (Py × Py))
    (aliasArg : Option (List (Py × Py))) (varsArg : List (String × Py)) :
    CleverDict × Option PyErr :=
  let d0 : CleverDict := ⟨[], [], []⟩
  let innerFlag := match aliasArg with
    | none => expandFlag
    | some _ => false
  match updateLoop innerFlag d0 mapping with
  | (d1, some e) => (d1, some e)
  | (d1, none) =>
    match aliasArg with
    | none => (varsLoop d1 varsArg, none)
    | some decls =>
      match aliasArgLoop d1 decls with
      | (d2, some e) => (d2, some e)
      | (d2, none) => (varsLoop d2 varsArg, none)

/-! ### The `expand` context manager -/

/-- The state of an `expand` context-manager instance: the requested value
and the saved prior value (set on `__enter__`). -/
structure ExpandMgr where
  ok : Bool
  save_expand : Bool

/-- `expand.__init__(ok)` (the saved slot is written by `__enter__`). -/
def expandInitMgr (ok : Bool) : ExpandMgr := ⟨ok, false⟩

/-- `expand.__enter__`: save the current `CleverDict.expand`, set it to the
requested value. Returns the updated manager and the new flag. -/
def expandEnter (m : ExpandMgr) (flag : Bool) : ExpandMgr × Bool :=
  (⟨m.ok, flag⟩, m.ok)

/-- `expand.__exit__(*args)`: restore the saved flag, on every exit path. -/
def expandExit (m : ExpandMgr) (_flag : Bool) : Bool := m.save_expand

/-- The `with expand(ok): body` statement: enter, run the body (which
receives the flag set by `__enter__` and returns its result — possibly an
exception — together with the flag state it left behind), then exit,
restoring the saved flag whether or not the body raised. -/
def withExpand {ε α : Type} (ok : Bool) (flag : Bool)
    (body : Bool → Except ε α × Bool) : Except ε α × Bool :=
  let p := expandEnter (expandInitMgr ok) flag
  let r := body p.2
  (r.1, expandExit p.1 r.2)

/-! ### Equality (`CleverDict.__eq__`) -/

/-- Python `dict.__eq__` on this universe: equal sizes and, for every pair
of the left dict, a `==`-equal key on the right with a `==`-equal value.
(`dict.items() == dict.items()` for the entry stores is equivalent to dict
equality.) -/
def pyDictEq (d1 d2 : List (Py × Py)) : Bool :=
  d1.length == d2.length &&
    d1.all (fun kv =>
      match dictLookup d2 kv.1 with
      | some w => pyEq kv.2 w
      | none => false)

/-- A value of `vars(self)`: the `_aliases` table or a plain attribute
value. -/
inductive Attr where
  | tbl (t : List (Py × Py))
  | val (v : Py)

/-- Python `==` on attribute values. -/
def attrEq : Attr → Attr → Bool
  | Attr.tbl t1, Attr.tbl t2 => pyDictEq t1 t2
  | Attr.val v, Attr.val w => pyEq v w
  | _, _ => false

/-- `vars(self)`: the `_aliases` attribute (always created first by
`__init__`) followed by the other direct attributes. -/
def varsDict (d : CleverDict) : List (String × Attr) :=
  (("_aliases"), Attr.tbl d.aliases) :: d.dvars.map (fun kv => (kv.1, Attr.val kv.2))

/-- Lookup in a string-keyed attribute list. -/
def strLookupAttr : List (String × Attr) → String → Option Attr
  | [], _ => none
  | (k, v) :: rest, q => if q == k then some v else strLookupAttr rest q

/-- Python `dict.__eq__` on `vars(...)` dicts. -/
def varsDictEq (v1 v2 : List (String × Attr)) : Bool :=
  v1.length == v2.length &&
    v1.all (fun kv =>
      match strLookupAttr v2 kv.1 with
      | some w => attrEq kv.2 w
      | none => false)

/-- `CleverDict.__eq__`: `self.items() == other.items() and
vars(self) == vars(other)` (for another CleverDict). -/
def cdEq (d1 d2 : CleverDict) : Bool :=
  pyDictEq d1.entries d2.entries && varsDictEq (varsDict d1) (varsDict d2)

/-- Dict equality of the non-`_aliases` direct attributes, used to state
what `__eq__` decomposes into. -/
def dvarsEq (l1 l2 : List (String × Py)) : Bool :=
  l1.length == l2.length &&
    l1.all (fun kv =>
      match strLookupPy l2 kv.1 with
      | some w => pyEq kv.2 w
      | none => false)

/-- The canonical form of a value under Python `==`: booleans collapse to
their numeric values. Two values are `==` exactly when their canonical
forms coincide. -/
def pyCanon : Py → Py
  | Py.bool b => Py.int (if b then 1 else 0)
  | x => x

/-- The normalized identifier form as the specification words it: prefix
`_` when the text is empty, starts with a digit or is a reserved keyword,
then replace every character that is illegal at its position — the first
character must be a legal identifier-start character, subsequent
characters legal identifier-continue characters — with `_`. Stated from
the wording of the specification, for comparison with the source-derived
`pyNormalize`. -/
def specNormalize (s : String) : String :=
  let seeded :=
    if s.data.isEmpty || headIsDigit s.data || pyKeywords.contains s then
      '_' :: s.data
    else
      s.data
  String.mk (seeded.enum.map (fun p =>
    if (if p.1 = 0 then isIdentStart p.2 else isIdentCont p.2) then p.2 else '_'))

/-! ### Helper lemmas -/

lemma pyEq_iff : ∀ a b : Py, pyEq a b = true ↔ pyCanon a = pyCanon b
  | Py.int _, Py.int _ => by simp [pyEq, pyCanon]
  | Py.int _, Py.bool b => by cases b <;> simp [pyEq, pyCanon]
  | Py.int _, Py.str _ => by simp [pyEq, pyCanon]
  | Py.bool a, Py.int _ => by cases a <;> simp [pyEq, pyCanon]
  | Py.bool a, Py.bool b => by cases a <;> cases b <;> simp [pyEq, pyCanon]
  | Py.bool a, Py.str _ => by cases a <;> simp [pyEq, pyCanon]
  | Py.str _, Py.int _ => by simp [pyEq, pyCanon]
  | Py.str _, Py.bool b => by cases b <;> simp [pyEq, pyCanon]
  | Py.str _, Py.str _ => by simp [pyEq, pyCanon]

lemma pyEq_refl (a : Py) : pyEq a a = true := (pyEq_iff a a).mpr rfl

lemma pyEq_symm {a b : Py} (h : pyEq a b = true) : pyEq b a = true :=
  (pyEq_iff b a).mpr ((pyEq_iff a b).mp h).symm

lemma pyEq_trans {a b c : Py} (h1 : pyEq a b = true) (h2 : pyEq b c = true) :
    pyEq a c = true :=
  (pyEq_iff a c).mpr (((pyEq_iff a b).mp h1).trans ((pyEq_iff b c).mp h2))

lemma dictLookup_congr {x y : Py} (d : List (Py × Py)) (h : pyEq x y = true) :
    dictLookup d x = dictLookup d y := by
  induction d with
  | nil => rfl
  | cons kv rest ih =>
    obtain ⟨k, v⟩ := kv
    by_cases hx : pyEq x k = true
    · have hy : pyEq y k = true := pyEq_trans (pyEq_symm h) hx
      simp [dictLookup, hx, hy]
    · have hy : pyEq y k = false := by
        by_contra hc
        exact hx (pyEq_trans h (by simpa using hc))
      simp only [dictLookup]
      rw [if_neg (by simp [hx]), if_neg (by simp [hy])]
      exact ih

lemma dictLookup_set_eq {q k : Py} (d : List (Py × Py)) (v : Py)
    (h : pyEq q k = true) : dictLookup (dictSet d k v) q = some v := by
  induction d with
  | nil => simp [dictSet, dictLookup, h]
  | cons kv rest ih =>
    obtain ⟨k0, v0⟩ := kv
    by_cases hk : pyEq k k0 = true
    · have hq : pyEq q k0 = true := pyEq_trans h hk
      simp [dictSet, hk, dictLookup, hq]
    · have hq : pyEq q k0 = false := by
        by_contra hc
        exact hk (pyEq_trans (pyEq_symm h) (by simpa using hc))
      simp only [dictSet]
      rw [if_neg (by simp [hk])]
      simp only [dictLookup]
      rw [if_neg (by simp [hq])]
      exact ih

lemma dictLookup_set_ne {q k : Py} (d : List (Py × Py)) (v : Py)
    (h : pyEq q k = false) : dictLookup (dictSet d k v) q = dictLookup d q := by
  induction d with
  | nil => simp [dictSet, dictLookup, h]
  | cons kv rest ih =>
    obtain ⟨k0, v0⟩ := kv
    by_cases hk : pyEq k k0 = true
    · have hq : pyEq q k0 = false := by
        by_contra hc
        have := pyEq_trans (by simpa using hc) (pyEq_symm hk)
        simp [this] at h
      simp [dictSet, hk, dictLookup, hq]
    · simp only [dictSet]
      rw [if_neg (by simp [hk])]
      simp only [dictLookup]
      by_cases hq : pyEq q k0 = true
      · simp [hq]
      · rw [if_neg (by simp [hq]), if_neg (by simp [hq])]
        exact ih

lemma dictSet_self {k v : Py} (d : List (Py × Py))
    (h : dictLookup d k = some v) : dictSet d k v = d := by
  induction d with
  | nil => simp [dictLookup] at h
  | cons kv rest ih =>
    obtain ⟨k0, v0⟩ := kv
    by_cases hk : pyEq k k0 = true
    · simp only [dictLookup] at h
      rw [if_pos hk] at h
      obtain rfl : v0 = v := by simpa using h
      simp [dictSet, hk]
    · simp only [dictLookup] at h
      rw [if_neg (by simp [hk])] at h
      simp only [dictSet]
      rw [if_neg (by simp [hk])]
      simp [ih h]

lemma dictKeys_set_of_contains {k : Py} (d : List (Py × Py)) (v : Py)
    (h : dictContains d k = true) : dictKeys (dictSet d k v) = dictKeys d := by
  induction d with
  | nil => simp [dictContains, dictLookup] at h
  | cons kv rest ih =>
    obtain ⟨k0, v0⟩ := kv
    by_cases hk : pyEq k k0 = true
    · simp [dictSet, hk, dictKeys]
    · simp only [dictContains, dictLookup] at h
      rw [if_neg (by simp [hk])] at h
      simp only [dictSet]
      rw [if_neg (by simp [hk])]
      simp only [dictKeys, List.map_cons] at ih ⊢
      rw [ih h]

lemma dictLookup_none_of_all_ne {x : Py} (d : List (Py × Py))
    (h : ∀ kv ∈ d, pyEq x kv.1 = false) : dictLookup d x = none := by
  induction d with
  | nil => rfl
  | cons kv rest ih =>
    obtain ⟨k0, v0⟩ := kv
    simp only [dictLookup]
    rw [if_neg (by simp [h (k0, v0) (by simp)])]
    exact ih (fun kv hm => h kv (by simp [hm]))

lemma dictLookup_purge_none {x w k : Py} :
    ∀ d : List (Py × Py), dictKeysNodup d = true →
    dictLookup d x = some w → pyEq w k = true →
    dictLookup (d.filter (fun kv => !(pyEq kv.2 k))) x = none := by
  intro d
  induction d with
  | nil => intro _ hx _; simp [dictLookup] at hx
  | cons kv rest ih =>
    obtain ⟨k0, v0⟩ := kv
    intro hnd hx hw
    simp only [dictKeysNodup, Bool.and_eq_true, List.all_eq_true] at hnd
    obtain ⟨hall, hrest⟩ := hnd
    by_cases hxk : pyEq x k0 = true
    · simp only [dictLookup] at hx
      rw [if_pos hxk] at hx
      have hvw : v0 = w := by simpa using hx
      subst hvw
      simp only [List.filter]
      rw [show (!(pyEq (k0, v0).2 k)) = false by simp [hw]]
      apply dictLookup_none_of_all_ne
      intro kv2 hm
      have hm2 : kv2 ∈ rest := (List.mem_filter.mp hm).1
      by_contra hc
      have hx2 : pyEq x kv2.1 = true := by simpa using hc
      have hcontra : pyEq k0 kv2.1 = true := pyEq_trans (pyEq_symm hxk) hx2
      have := hall kv2 hm2
      simp_all
    · simp only [dictLookup] at hx
      rw [if_neg (by simp [hxk] : ¬ pyEq x k0 = true)] at hx
      simp only [List.filter]
      by_cases hv : pyEq v0 k = true
      · rw [show (!(pyEq (k0, v0).2 k)) = false by simp [hv]]
        exact ih hrest hx hw
      · rw [show (!(pyEq (k0, v0).2 k)) = true by simp [hv]]
        simp only [dictLookup]
        rw [if_neg (by simp [hxk])]
        exact ih hrest hx hw

lemma dictLookup_del_self {q k : Py} :
    ∀ d : List (Py × Py), dictKeysNodup d = true → pyEq q k = true →
    dictLookup (dictDel d k) q = none := by
  intro d
  induction d with
  | nil => intro _ _; rfl
  | cons kv rest ih =>
    obtain ⟨k0, v0⟩ := kv
    intro hnd hq
    simp only [dictKeysNodup, Bool.and_eq_true, List.all_eq_true] at hnd
    obtain ⟨hall, hrest⟩ := hnd
    by_cases hk : pyEq k k0 = true
    · simp only [dictDel]
      rw [if_pos hk]
      apply dictLookup_none_of_all_ne
      intro kv2 hm
      by_contra hc
      have hqk : pyEq q kv2.1 = true := by simpa using hc
      have : pyEq k0 kv2.1 = true :=
        pyEq_trans (pyEq_symm hk) (pyEq_trans (pyEq_symm hq) hqk)
      have := hall kv2 hm
      simp_all
    · simp only [dictDel]
      rw [if_neg (by simp [hk])]
      simp only [dictLookup]
      have hq0 : pyEq q k0 = false := by
        by_contra hc
        exact hk (pyEq_trans (pyEq_symm hq) (by simpa using hc))
      rw [if_neg (by simp [hq0])]
      exact ih hrest hq

lemma _add_alias_ok {d d1 : CleverDict} {name al : Py}
    (h : _add_alias d name al = (d1, none)) :
    d1.aliases = dictSet d.aliases al name ∧
    d1.entries = d.entries ∧ d1.dvars = d.dvars := by
  unfold _add_alias at h
  split at h
  next tgt hl =>
    split at h
    next => exact absurd h (by simp)
    next =>
      injection h with h1 _
      subst h1
      exact ⟨rfl, rfl, rfl⟩
  next hl =>
    injection h with h1 _
    subst h1
    exact ⟨rfl, rfl, rfl⟩

lemma _add_alias_fresh {d : CleverDict} {name al : Py}
    (hl : dictLookup d.aliases al = none) :
    _add_alias d name al = ({d with aliases := dictSet d.aliases al name}, none) := by
  unfold _add_alias
  rw [hl]

lemma _add_alias_collide {d : CleverDict} {name al tgt : Py}
    (hl : dictLookup d.aliases al = some tgt) (ht : pyEq tgt name = false) :
    _add_alias d name al = (d, some (PyErr.keyError (Py.str (collisionMsg al tgt)))) := by
  unfold _add_alias
  rw [hl]
  simp [ht]

lemma _add_alias_same {d : CleverDict} {name al : Py}
    (hl : dictLookup d.aliases al = some name) :
    _add_alias d name al = (d, none) := by
  unfold _add_alias
  rw [hl]
  simp only [pyEq_refl name, Bool.not_true, Bool.false_eq_true, if_false,
    dictSet_self d.aliases hl]

lemma addAliasLoop_ok {key : Py} :
    ∀ (l : List Py) (d d' : CleverDict), addAliasLoop d key l = (d', none) →
    (∀ al ∈ l, dictLookup d'.aliases al = some key) ∧
    (∀ x, (∀ al ∈ l, pyEq x al = false) →
      dictLookup d'.aliases x = dictLookup d.aliases x) ∧
    d'.entries = d.entries ∧ d'.dvars = d.dvars := by
  intro l
  induction l with
  | nil =>
    intro d d' h
    simp only [addAliasLoop] at h
    injection h with h1 _
    subst h1
    exact ⟨by simp, fun x _ => rfl, rfl, rfl⟩
  | cons al rest ih =>
    intro d d' h
    simp only [addAliasLoop] at h
    rcases hp : _add_alias d key al with ⟨d1, oe⟩
    rw [hp] at h
    cases oe with
    | some e => simp at h
    | none =>
      simp only at h
      obtain ⟨ha1, he1, hv1⟩ := _add_alias_ok hp
      obtain ⟨ih1, ih2, ih3, ih4⟩ := ih d1 d' h
      refine ⟨?_, ?_, ih3.trans he1, ih4.trans hv1⟩
      · intro a hm
        rcases List.mem_cons.mp hm with rfl | hm2
        · by_cases hc : ∀ a2 ∈ rest, pyEq a a2 = false
          · rw [ih2 a hc, ha1]
            exact dictLookup_set_eq _ _ (pyEq_refl a)
          · push_neg at hc
            obtain ⟨a2, hm2, hne⟩ := hc
            have heq : pyEq a a2 = true := by
              cases hb : pyEq a a2
              · exact absurd hb hne
              · rfl
            rw [dictLookup_congr d'.aliases heq]
            exact ih1 a2 hm2
        · exact ih1 a hm2
      · intro x hx
        have hxr : ∀ a2 ∈ rest, pyEq x a2 = false :=
          fun a2 hm => hx a2 (by simp [hm])
        rw [ih2 x hxr, ha1, dictLookup_set_ne _ _ (hx al (by simp))]

lemma addAliasLoop_collide {key a k1 : Py} (hk : pyEq k1 key = false) :
    ∀ (l1 : List Py) (d : CleverDict) (l2 : List Py),
    (∀ x ∈ l1, dictLookup d.aliases x = none) → pyNodup l1 = true →
    dictLookup d.aliases a = some k1 →
    (addAliasLoop d key (l1 ++ a :: l2)).2 =
      some (PyErr.keyError (Py.str (collisionMsg a k1))) ∧
    (addAliasLoop d key (l1 ++ a :: l2)).1.entries = d.entries ∧
    (∀ x w, dictLookup d.aliases x = some w →
      dictLookup (addAliasLoop d key (l1 ++ a :: l2)).1.aliases x = some w) := by
  intro l1
  induction l1 with
  | nil =>
    intro d l2 _ _ ha
    simp only [List.nil_append, addAliasLoop, _add_alias_collide ha hk]
    exact ⟨trivial, trivial, fun x w hx => hx⟩
  | cons x0 l1 ih =>
    intro d l2 hfresh hnd ha
    have hx0 : dictLookup d.aliases x0 = none := hfresh x0 (by simp)
    simp only [List.cons_append, addAliasLoop, _add_alias_fresh hx0]
    simp only [pyNodup, Bool.and_eq_true, List.all_eq_true] at hnd
    obtain ⟨hall, hnd1⟩ := hnd
    have hfresh1 : ∀ x ∈ l1,
        dictLookup (dictSet d.aliases x0 key) x = none := by
      intro x hm
      have hxe : pyEq x x0 = false := by
        by_contra hc
        have h1 : pyEq x x0 = true := by simpa using hc
        have := hall x hm
        simp [pyEq_symm h1] at this
      rw [dictLookup_set_ne _ _ hxe]
      exact hfresh x (by simp [hm])
    have hax0 : pyEq a x0 = false := by
      by_contra hc
      have h1 : pyEq a x0 = true := by simpa using hc
      rw [dictLookup_congr d.aliases h1, hx0] at ha
      exact Option.noConfusion ha
    have ha1 : dictLookup (dictSet d.aliases x0 key) a = some k1 := by
      rw [dictLookup_set_ne _ _ hax0]
      exact ha
    obtain ⟨c1, c2, c3⟩ :=
      ih ({d with aliases := dictSet d.aliases x0 key}) l2 hfresh1 hnd1 ha1
    refine ⟨c1, c2, ?_⟩
    intro x w hx
    have hxx0 : pyEq x x0 = false := by
      by_contra hc
      have h1 : pyEq x x0 = true := by simpa using hc
      rw [dictLookup_congr d.aliases h1, hx0] at hx
      exact Option.noConfusion hx
    exact c3 x w (by rw [show ({d with aliases := dictSet d.aliases x0 key} :
      CleverDict).aliases = dictSet d.aliases x0 key from rfl,
      dictLookup_set_ne _ _ hxx0]; exact hx)

lemma pyNodup_append_left : ∀ l1 l2 : List Py,
    pyNodup (l1 ++ l2) = true → pyNodup l1 = true := by
  intro l1 l2 h
  induction l1 with
  | nil => rfl
  | cons x xs ih =>
    simp only [List.cons_append, pyNodup, Bool.and_eq_true,
      List.all_eq_true] at h ⊢
    obtain ⟨hall, h2⟩ := h
    exact ⟨fun y hm => hall y (List.mem_append_left _ hm), ih h2⟩

lemma name_to_aliases_nodup (flag : Bool) (n : Py) :
    pyNodup (name_to_aliases flag n) = true := by
  cases flag with
  | false => simp [name_to_aliases, pyNodup]
  | true =>
    cases n with
    | int m =>
      by_cases h0 : m = 0
      · subst h0; decide
      · by_cases h1 : m = 1
        · subst h1; decide
        · simp [name_to_aliases, pyEq, pyHash, pyToInt, h0, h1, pyNodup]
    | bool b => cases b <;> decide
    | str s =>
      by_cases hn : pyNormalize s = s
      · simp [name_to_aliases, pyEq, pyHash, hn, pyNodup]
      · simp [name_to_aliases, pyEq, pyHash, hn, pyNodup, Ne.symm hn]

lemma name_to_aliases_head (flag : Bool) (n : Py) :
    ∃ t, name_to_aliases flag n = n :: t := by
  cases flag with
  | false => exact ⟨[], rfl⟩
  | true =>
    simp only [name_to_aliases]
    repeat' split
    all_goals exact ⟨_, rfl⟩

lemma name_to_aliases_mem_self (flag : Bool) (n : Py) :
    n ∈ name_to_aliases flag n := by
  obtain ⟨t, ht⟩ := name_to_aliases_head flag n
  rw [ht]
  exact List.mem_cons_self n t

lemma varsLoop_preserves : ∀ (l : List (String × Py)) (d : CleverDict),
    (varsLoop d l).entries = d.entries ∧ (varsLoop d l).aliases = d.aliases := by
  intro l
  induction l with
  | nil => intro d; exact ⟨rfl, rfl⟩
  | cons kv rest ih =>
    intro d
    obtain ⟨k, v⟩ := kv
    simp only [varsLoop, setattr_direct]
    exact ih _

lemma strLookupAttr_map_val (l : List (String × Py)) (q : String) :
    strLookupAttr (l.map (fun kv => (kv.1, Attr.val kv.2))) q =
      (strLookupPy l q).map Attr.val := by
  induction l with
  | nil => rfl
  | cons kv rest ih =>
    obtain ⟨k, v⟩ := kv
    simp only [List.map_cons, strLookupAttr, strLookupPy]
    by_cases hq : (q == k) = true
    · simp [hq]
    · rw [if_neg (by simp_all), if_neg (by simp_all)]
      exact ih

lemma normChar_spec (i : Nat) (ch : Char) :
    normChar i ch =
      if (if i = 0 then isIdentStart ch else isIdentCont ch) then ch else '_' := by
  cases i with
  | zero => simp [normChar, pyIsIdentifier]
  | succ j =>
    have hA : isIdentStart ('A') = true := by decide
    simp [normChar, pyIsIdentifier, hA]

/-! ### Claim theorems -/

/-- Claim C8: with expansion enabled, for every key whose own hash equals
its numeric value (every integer and boolean of the modelled universe),
the deriver returns the key itself followed by the string alias
`"_" + <integer value>`, plus the boolean-style alias `"_False"`/`"_True"`
exactly when the value is numerically 0 or 1; with expansion disabled the
result is exactly the one-element list containing the key. -/
theorem C8_int_like_aliases :
    (∀ n : Int, name_to_aliases true (Py.int n) =
      [Py.int n, Py.str (("_") ++ toString n)] ++
        (if n = 0 then [Py.str ("_False")]
         else if n = 1 then [Py.str ("_True")] else [])) ∧
    (∀ b : Bool, name_to_aliases true (Py.bool b) =
      [Py.bool b, Py.str (("_") ++ toString (if b then (1 : Int) else 0)),
        Py.str (if b then ("_True") else ("_False"))]) ∧
    (∀ k : Py, name_to_aliases false k = [k]) := by
  refine ⟨?_, ?_, ?_⟩
  · intro n
    by_cases h0 : n = 0
    · subst h0; decide
    · by_cases h1 : n = 1
      · subst h1; decide
      · simp [name_to_aliases, pyEq, pyHash, pyToInt, h0, h1]
  · intro b
    cases b <;> decide
  · intro k
    rfl

/-- Claim C9: with expansion enabled, the normalization performed by the deriver on a
string key coincides with the normalized identifier form of the specification
(prefix `_` when empty, digit-initial or a keyword; then replace each
positionally illegal character by `_`), the normalized form is appended
exactly when it differs from the key, and concretely `set("two words", 5)`
registers the alias `"two_words"` with `get("two_words") == 5`. -/
theorem C9_string_normalization :
    (∀ s : String, pyNormalize s = specNormalize s) ∧
    (∀ s : String, name_to_aliases true (Py.str s) =
      Py.str s ::
        (if pyNormalize s = s then [] else [Py.str (pyNormalize s)])) ∧
    setItem true ⟨[], [], []⟩ (Py.str ("two words")) (Py.int 5) =
      (⟨[(Py.str ("two words"), Py.int 5)],
        [(Py.str ("two words"), Py.str ("two words")),
         (Py.str ("two_words"), Py.str ("two words"))], []⟩, none) ∧
    getItem
      (⟨[(Py.str ("two words"), Py.int 5)],
        [(Py.str ("two words"), Py.str ("two words")),
         (Py.str ("two_words"), Py.str ("two words"))], []⟩ : CleverDict)
      (Py.str ("two_words")) = Except.ok (Py.int 5) := by
  refine ⟨?_, ?_, by decide, by rfl⟩
  · intro s
    unfold pyNormalize specNormalize normSeed normJoin
    congr 1
    apply List.map_congr_left
    intro p _
    exact normChar_spec p.1 p.2
  · intro s
    by_cases hn : pyNormalize s = s
    · simp [name_to_aliases, pyEq, pyHash, hn]
    · simp [name_to_aliases, pyEq, pyHash, hn]

/-- Claim C7: the scoped expansion override sets the flag to the requested
value for the duration of the scope and restores the prior value
unconditionally on exit — for every body, including bodies that raise and
bodies that leave the flag in any state — and nested overrides compose:
observing the flag right after an inner scope inside an outer scope that
set `ok1` yields `ok1`, while the whole nest restores the original flag.
Concretely, `set(123, "x")` inside a disabling scope registers no alias
`"_123"` (and the flag is restored to `true` afterwards), while the same
set under the enabled flag does register `"_123"`. -/
theorem C7_expand_scoping :
    (∀ (ε α : Type) (ok flag : Bool) (body : Bool → Except ε α × Bool),
      (withExpand ok flag body).2 = flag) ∧
    (∀ (ε α : Type) (ok1 ok2 flag : Bool) (body : Bool → Except ε α × Bool),
      withExpand (ε := ε) (α := Bool) ok1 flag
        (fun f1 =>
          let r := withExpand ok2 f1 body
          (Except.ok r.2, r.2)) = (Except.ok ok1, flag)) ∧
    (∀ (ε α : Type) (flag ok : Bool) (e : ε) (f2 : Bool),
      withExpand ok flag (fun _ => ((Except.error e : Except ε α), f2)) =
        (Except.error e, flag)) ∧
    (withExpand (ε := Unit) false true
      (fun f => (Except.ok (setItem f ⟨[], [], []⟩ (Py.int 123) (Py.str ("x"))).1, f))) =
      (Except.ok (⟨[(Py.int 123, Py.str ("x"))], [(Py.int 123, Py.int 123)], []⟩ :
        CleverDict), true) ∧
    dictContains
      ((⟨[(Py.int 123, Py.str ("x"))], [(Py.int 123, Py.int 123)], []⟩ :
        CleverDict).aliases) (Py.str ("_123")) = false ∧
    dictContains
      (setItem true ⟨[], [], []⟩ (Py.int 123) (Py.str ("x"))).1.aliases
      (Py.str ("_123")) = true := by
  refine ⟨?_, ?_, ?_, by rfl, by decide, by decide⟩
  · intro ε α ok flag body
    rfl
  · intro ε α ok1 ok2 flag body
    rfl
  · intro ε α flag ok e f2
    rfl

/-- Claim C2 (violated by the code): the `delete_alias` cascade protects
only the globally-first entry of the alias index, not every canonical key.
Starting from an empty container: `set("x", 1)`, `set("_7", 2)`,
`add_alias("_7", 7)`, then `delete_alias(7)` cascades over the derived
form `"_7"` of the deleted alias `7` and removes the self-mapping of the
canonical key `"_7"` from the alias index, although `"_7"` is still an
entry: invariant I1 is broken and `get("_7")` now fails although the
entry for `"_7"` still exists. -/
theorem C2_delete_alias_breaks_I1 :
    setItem true ⟨[], [], []⟩ (Py.str ("x")) (Py.int 1) =
      (⟨[(Py.str ("x"), Py.int 1)], [(Py.str ("x"), Py.str ("x"))], []⟩, none) ∧
    setItem true ⟨[(Py.str ("x"), Py.int 1)], [(Py.str ("x"), Py.str ("x"))], []⟩
        (Py.str ("_7")) (Py.int 2) =
      (⟨[(Py.str ("x"), Py.int 1), (Py.str ("_7"), Py.int 2)],
        [(Py.str ("x"), Py.str ("x")), (Py.str ("_7"), Py.str ("_7"))], []⟩, none) ∧
    add_alias true
        (⟨[(Py.str ("x"), Py.int 1), (Py.str ("_7"), Py.int 2)],
          [(Py.str ("x"), Py.str ("x")), (Py.str ("_7"), Py.str ("_7"))], []⟩ :
          CleverDict)
        (Py.str ("_7")) (Py.int 7) =
      (⟨[(Py.str ("x"), Py.int 1), (Py.str ("_7"), Py.int 2)],
        [(Py.str ("x"), Py.str ("x")), (Py.str ("_7"), Py.str ("_7")),
         (Py.int 7, Py.str ("_7"))], []⟩, none) ∧
    delete_alias true
        (⟨[(Py.str ("x"), Py.int 1), (Py.str ("_7"), Py.int 2)],
          [(Py.str ("x"), Py.str ("x")), (Py.str ("_7"), Py.str ("_7")),
           (Py.int 7, Py.str ("_7"))], []⟩ : CleverDict)
        (Py.int 7) =
      (⟨[(Py.str ("x"), Py.int 1), (Py.str ("_7"), Py.int 2)],
        [(Py.str ("x"), Py.str ("x"))], []⟩, none) ∧
    dictContains
      ([(Py.str ("x"), Py.int 1), (Py.str ("_7"), Py.int 2)]) (Py.str ("_7")) = true ∧
    dictContains ([(Py.str ("x"), Py.str ("x"))]) (Py.str ("_7")) = false ∧
    getItem
      (⟨[(Py.str ("x"), Py.int 1), (Py.str ("_7"), Py.int 2)],
        [(Py.str ("x"), Py.str ("x"))], []⟩ : CleverDict) (Py.str ("_7")) =
      Except.error (PyErr.keyError (Py.str ("_7"))) := by
  refine ⟨by decide, by decide, by decide, by decide, by decide, by decide, by rfl⟩

/-- Claim C3 (refuted as stated): with the expansion flag disabled,
`add_alias("x", "two words")` succeeds but registers only the given alias
`"two words"` itself — the derived form `"two_words"` is NOT registered,
because `add_alias` derives the forms of the alias under the current flag, not
by unconditional full derivation. -/
theorem C3_counterexample_flag_respected :
    add_alias false
        (⟨[(Py.str ("x"), Py.int 1)], [(Py.str ("x"), Py.str ("x"))], []⟩ :
          CleverDict)
        (Py.str ("x")) (Py.str ("two words")) =
      (⟨[(Py.str ("x"), Py.int 1)],
        [(Py.str ("x"), Py.str ("x")), (Py.str ("two words"), Py.str ("x"))],
        []⟩, none) ∧
    dictContains
      ([(Py.str ("x"), Py.str ("x")), (Py.str ("two words"), Py.str ("x"))])
      (Py.str ("two_words")) = false := by
  exact ⟨by decide, by decide⟩

/-- Claim C3, amended: for every container, resolvable key and alias
argument, a successful `add_alias` registers the given alias together with
each of its derived forms computed under the CURRENT expansion flag (full
derivation exactly when the flag is enabled), all mapping to the resolved
canonical key, and changes no other alias mapping and no entry. -/
theorem C3_amended_flag_dependent_derivation (flag : Bool) (d d' : CleverDict)
    (name al key : Py)
    (hkey : get_key d name = Except.ok key)
    (hok : add_alias flag d name al = (d', none)) :
    (∀ x ∈ name_to_aliases flag al, dictLookup d'.aliases x = some key) ∧
    (∀ x, (∀ y ∈ name_to_aliases flag al, pyEq x y = false) →
      dictLookup d'.aliases x = dictLookup d.aliases x) ∧
    d'.entries = d.entries := by
  unfold add_alias at hok
  rw [hkey] at hok
  simp only at hok
  obtain ⟨c1, c2, c3, _⟩ := addAliasLoop_ok _ _ _ hok
  exact ⟨c1, c2, c3⟩

/-- Witness for the amended C3: with the flag enabled, adding alias `7`
to key `"x"` registers the derived sibling `"_7"` as well, mapping to
`"x"`. -/
theorem C3_amended_witness :
    dictLookup
      ([(Py.str ("x"), Py.str ("x")), (Py.int 7, Py.str ("x")),
        (Py.str ("_7"), Py.str ("x"))]) (Py.str ("_7")) = some (Py.str ("x")) := by
  have h := (C3_amended_flag_dependent_derivation true
    (⟨[(Py.str ("x"), Py.int 1)], [(Py.str ("x"), Py.str ("x"))], []⟩ : CleverDict)
    (⟨[(Py.str ("x"), Py.int 1)],
      [(Py.str ("x"), Py.str ("x")), (Py.int 7, Py.str ("x")),
       (Py.str ("_7"), Py.str ("x"))], []⟩ : CleverDict)
    (Py.str ("x")) (Py.int 7) (Py.str ("x")) (by rfl) (by decide)).1
    (Py.str ("_7")) (by decide)
  exact h

/-- Claim C1 (refuted as stated): `__eq__` compares `vars(self)`, which
contains the `_aliases` attribute, so alias sets ARE part of equality.
Two containers built with the same items and values but different explicit
alias sets compare unequal. -/
theorem C1_counterexample_aliases_affect_eq :
    (cdInit true [(Py.str ("x"), Py.int 1)]
      (some [(Py.str ("a"), Py.str ("x"))]) []).2 = none ∧
    (cdInit true [(Py.str ("x"), Py.int 1)] (some []) []).2 = none ∧
    pyDictEq
      (cdInit true [(Py.str ("x"), Py.int 1)]
        (some [(Py.str ("a"), Py.str ("x"))]) []).1.entries
      (cdInit true [(Py.str ("x"), Py.int 1)] (some []) []).1.entries = true ∧
    cdEq
      (cdInit true [(Py.str ("x"), Py.int 1)]
        (some [(Py.str ("a"), Py.str ("x"))]) []).1
      (cdInit true [(Py.str ("x"), Py.int 1)] (some []) []).1 = false := by
  refine ⟨by decide, by decide, by decide, by decide⟩

/-- Claim C1, amended: two containers are equal exactly when their item
sets are equal AND their complete direct-attribute sets INCLUDING the
alias index are equal — the alias index is part of equality, so containers
with the same items but `==`-different alias indices compare unequal. -/
theorem C1_amended_eq_includes_aliases (d1 d2 : CleverDict)
    (h1 : ∀ kv ∈ d1.dvars, kv.1 ≠ ("_aliases")) :
    cdEq d1 d2 = true ↔
      (pyDictEq d1.entries d2.entries = true ∧
       pyDictEq d1.aliases d2.aliases = true ∧
       dvarsEq d1.dvars d2.dvars = true) := by
  have hlook1 : ∀ kv : String × Py, kv ∈ d1.dvars →
      strLookupAttr (varsDict d2) kv.1 =
        (strLookupPy d2.dvars kv.1).map Attr.val := by
    intro kv hm
    have hne : (kv.1 == ("_aliases")) = false := by
      simp only [beq_eq_false_iff_ne, ne_eq]
      exact h1 kv hm
    simp only [varsDict, strLookupAttr]
    rw [if_neg (by simp [hne])]
    exact strLookupAttr_map_val d2.dvars kv.1
  have hsplit : varsDictEq (varsDict d1) (varsDict d2) = true ↔
      (pyDictEq d1.aliases d2.aliases = true ∧
       dvarsEq d1.dvars d2.dvars = true) := by
    have hhead : strLookupAttr (varsDict d2) ("_aliases") =
        some (Attr.tbl d2.aliases) := by
      simp [varsDict, strLookupAttr]
    unfold varsDictEq dvarsEq
    rw [show varsDict d1 = (("_aliases"), Attr.tbl d1.aliases) ::
      d1.dvars.map (fun kv => (kv.1, Attr.val kv.2)) from rfl]
    simp only [List.all_cons, List.length_cons, Bool.and_eq_true,
      List.all_eq_true, List.mem_map, beq_iff_eq, hhead]
    constructor
    · rintro ⟨hlen, hh, htail⟩
      have hlen2 : d1.dvars.length = d2.dvars.length := by
        rw [show (varsDict d2).length = d2.dvars.length + 1 by
          simp [varsDict]] at hlen
        simpa using hlen
      refine ⟨by simpa [attrEq] using hh, hlen2, ?_⟩
      intro kv hm
      have ht := htail (kv.1, Attr.val kv.2) ⟨kv, hm, rfl⟩
      rw [hlook1 kv hm] at ht
      cases hs : strLookupPy d2.dvars kv.1 with
      | none => rw [hs] at ht; simp at ht
      | some w => rw [hs] at ht; simpa [attrEq] using ht
    · rintro ⟨ha, hlen, htail⟩
      refine ⟨?_, by simpa [attrEq] using ha, ?_⟩
      · rw [show (varsDict d2).length = d2.dvars.length + 1 by
          simp [varsDict]]
        simpa using hlen
      · rintro x ⟨kv, hm, rfl⟩
        rw [hlook1 kv hm]
        have ht := htail kv hm
        cases hs : strLookupPy d2.dvars kv.1 with
        | none => rw [hs] at ht; simp at ht
        | some w => rw [hs] at ht; simpa [attrEq] using ht
  unfold cdEq
  rw [Bool.and_eq_true, hsplit]

/-- Witness for the amended C1: two concrete containers with equal items,
equal alias indices and equal direct attributes are `__eq__`-equal. -/
theorem C1_amended_witness :
    cdEq
      (⟨[(Py.str ("x"), Py.int 1)], [(Py.str ("x"), Py.str ("x"))],
        [(("note"), Py.int 9)]⟩ : CleverDict)
      (⟨[(Py.str ("x"), Py.int 1)], [(Py.str ("x"), Py.str ("x"))],
        [(("note"), Py.int 9)]⟩ : CleverDict) = true := by
  exact (C1_amended_eq_includes_aliases
    (⟨[(Py.str ("x"), Py.int 1)], [(Py.str ("x"), Py.str ("x"))],
      [(("note"), Py.int 9)]⟩ : CleverDict)
    (⟨[(Py.str ("x"), Py.int 1)], [(Py.str ("x"), Py.str ("x"))],
      [(("note"), Py.int 9)]⟩ : CleverDict)
    (by decide)).mpr ⟨by decide, by decide, by decide⟩

/-- Claim C4: when alias `a` already resolves to canonical key `k1`,
registering `a` for a different canonical key `k2` raises the collision
`KeyError` naming `a` and `k1` — via `add_alias` (which fails on its first
registration step, leaving the whole state untouched) and via `set` on a
fresh key `k2` whose derived aliases include `a` (which fails at `a`,
writes no entry, and leaves every pre-existing alias mapping unchanged) —
while registering `a` again for the same key `k1` is a silent no-op that
changes nothing. -/
theorem C4_collision_rejection :
    (∀ (flag : Bool) (d : CleverDict) (a k1 k2 : Py),
      dictLookup d.aliases a = some k1 →
      pyEq k1 k2 = false →
      dictLookup d.aliases k2 = some k2 →
      add_alias flag d k2 a =
        (d, some (PyErr.keyError (Py.str (collisionMsg a k1))))) ∧
    (∀ (d : CleverDict) (a k1 : Py),
      dictLookup d.aliases a = some k1 →
      _add_alias d k1 a = (d, none)) ∧
    (∀ (flag : Bool) (d : CleverDict) (a k1 k2 v : Py) (l1 l2 : List Py),
      dictLookup d.aliases a = some k1 →
      pyEq k1 k2 = false →
      dictLookup d.aliases k2 = none →
      dictContains d.entries k2 = false →
      name_to_aliases flag k2 = l1 ++ a :: l2 →
      (∀ x ∈ l1, dictLookup d.aliases x = none) →
      (setItem flag d k2 v).2 =
        some (PyErr.keyError (Py.str (collisionMsg a k1))) ∧
      (setItem flag d k2 v).1.entries = d.entries ∧
      (∀ x w, dictLookup d.aliases x = some w →
        dictLookup (setItem flag d k2 v).1.aliases x = some w)) := by
  refine ⟨?_, ?_, ?_⟩
  · intro flag d a k1 k2 ha hne hk2
    obtain ⟨t, ht⟩ := name_to_aliases_head flag a
    unfold add_alias get_key
    rw [hk2]
    simp only [ht, addAliasLoop, _add_alias_collide ha hne]
  · intro d a k1 ha
    exact _add_alias_same ha
  · intro flag d a k1 k2 v l1 l2 ha hne hk2 hc2 hder hfresh
    have hnod : pyNodup l1 = true := by
      have := name_to_aliases_nodup flag k2
      rw [hder] at this
      exact pyNodup_append_left l1 (a :: l2) this
    obtain ⟨c1, c2, c3⟩ := addAliasLoop_collide hne l1 d l2 hfresh hnod ha
    have hset : setItem flag d k2 v =
        ((addAliasLoop d k2 (l1 ++ a :: l2)).1,
         some (PyErr.keyError (Py.str (collisionMsg a k1)))) := by
      unfold setItem
      rw [hk2, hder]
      simp only [hc2, Bool.false_eq_true, if_false]
      rcases hl : addAliasLoop d k2 (l1 ++ a :: l2) with ⟨dl, oe⟩
      rw [hl] at c1
      simp only at c1
      subst c1
      simp only
    rw [hset]
    exact ⟨rfl, c2, c3⟩

/-- Witness for C4: concrete collision through `add_alias` and through
`set`, and the concrete silent no-op. -/
theorem C4_collision_rejection_witness :
    add_alias true
        (⟨[(Py.str ("x"), Py.int 1), (Py.str ("y"), Py.int 2)],
          [(Py.str ("x"), Py.str ("x")), (Py.str ("a"), Py.str ("x")),
           (Py.str ("y"), Py.str ("y"))], []⟩ : CleverDict)
        (Py.str ("y")) (Py.str ("a")) =
      (⟨[(Py.str ("x"), Py.int 1), (Py.str ("y"), Py.int 2)],
        [(Py.str ("x"), Py.str ("x")), (Py.str ("a"), Py.str ("x")),
         (Py.str ("y"), Py.str ("y"))], []⟩,
       some (PyErr.keyError
         (Py.str (collisionMsg (Py.str ("a")) (Py.str ("x")))))) ∧
    _add_alias
        (⟨[(Py.str ("x"), Py.int 1), (Py.str ("y"), Py.int 2)],
          [(Py.str ("x"), Py.str ("x")), (Py.str ("a"), Py.str ("x")),
           (Py.str ("y"), Py.str ("y"))], []⟩ : CleverDict)
        (Py.str ("x")) (Py.str ("a")) =
      (⟨[(Py.str ("x"), Py.int 1), (Py.str ("y"), Py.int 2)],
        [(Py.str ("x"), Py.str ("x")), (Py.str ("a"), Py.str ("x")),
         (Py.str ("y"), Py.str ("y"))], []⟩, none) ∧
    (setItem true
        (⟨[(Py.str ("a_b"), Py.int 1)], [(Py.str ("a_b"), Py.str ("a_b"))],
          []⟩ : CleverDict)
        (Py.str ("a b")) (Py.int 9)).2 =
      some (PyErr.keyError
        (Py.str (collisionMsg (Py.str ("a_b")) (Py.str ("a_b"))))) ∧
    (setItem true
        (⟨[(Py.str ("a_b"), Py.int 1)], [(Py.str ("a_b"), Py.str ("a_b"))],
          []⟩ : CleverDict)
        (Py.str ("a b")) (Py.int 9)).1.entries = [(Py.str ("a_b"), Py.int 1)] ∧
    dictLookup
      (setItem true
        (⟨[(Py.str ("a_b"), Py.int 1)], [(Py.str ("a_b"), Py.str ("a_b"))],
          []⟩ : CleverDict)
        (Py.str ("a b")) (Py.int 9)).1.aliases (Py.str ("a_b")) =
      some (Py.str ("a_b")) := by
  have hp3 := C4_collision_rejection.2.2 true
    (⟨[(Py.str ("a_b"), Py.int 1)], [(Py.str ("a_b"), Py.str ("a_b"))],
      []⟩ : CleverDict)
    (Py.str ("a_b")) (Py.str ("a_b")) (Py.str ("a b")) (Py.int 9)
    ([Py.str ("a b")]) ([])
    (by decide) (by decide) (by decide) (by decide) (by decide) (by decide)
  refine ⟨?_, ?_, hp3.1, hp3.2.1, hp3.2.2 (Py.str ("a_b")) (Py.str ("a_b")) (by decide)⟩
  · exact C4_collision_rejection.1 true
      (⟨[(Py.str ("x"), Py.int 1), (Py.str ("y"), Py.int 2)],
        [(Py.str ("x"), Py.str ("x")), (Py.str ("a"), Py.str ("x")),
         (Py.str ("y"), Py.str ("y"))], []⟩ : CleverDict)
      (Py.str ("a")) (Py.str ("x")) (Py.str ("y"))
      (by decide) (by decide) (by decide)
  · exact C4_collision_rejection.2.1
      (⟨[(Py.str ("x"), Py.int 1), (Py.str ("y"), Py.int 2)],
        [(Py.str ("x"), Py.str ("x")), (Py.str ("a"), Py.str ("x")),
         (Py.str ("y"), Py.str ("y"))], []⟩ : CleverDict)
      (Py.str ("a")) (Py.str ("x")) (by decide)

/-- Claim C5: for every container (with genuine-dict states) and every
alias `a` resolving to canonical key `k` with an entry, `delete(a)`
succeeds, removes the entry for `k` and exactly the alias-index entries
whose target is `k`; afterwards item access on `k` or on any former alias
of `k` fails with a `KeyError` and attribute access with an
`AttributeError`; and `delete` on an unresolvable argument fails with a
`KeyError`. -/
theorem C5_deletion_purges_aliases :
    (∀ (d : CleverDict) (a k : Py),
      dictKeysNodup d.aliases = true →
      dictKeysNodup d.entries = true →
      dictLookup d.aliases a = some k →
      dictContains d.entries k = true →
      (delItem d a).2 = none ∧
      dictContains (delItem d a).1.entries k = false ∧
      (delItem d a).1.aliases =
        d.aliases.filter (fun kv => !(pyEq kv.2 k)) ∧
      (∀ x w, dictLookup d.aliases x = some w → pyEq w k = true →
        getItem (delItem d a).1 x = Except.error (PyErr.keyError x) ∧
        getAttr (delItem d a).1 x =
          Except.error (PyErr.attributeError x))) ∧
    (∀ (d : CleverDict) (a : Py),
      dictLookup d.aliases a = none →
      delItem d a = (d, some (PyErr.keyError a))) := by
  constructor
  · intro d a k hndA hndE ha hck
    have hdel : delItem d a =
        ({d with
            entries := dictDel d.entries k,
            aliases := d.aliases.filter (fun kv => !(pyEq kv.2 k))}, none) := by
      unfold delItem get_key
      rw [ha]
      simp only [hck, if_true]
    rw [hdel]
    refine ⟨rfl, ?_, rfl, ?_⟩
    · simp only [dictContains,
        dictLookup_del_self d.entries hndE (pyEq_refl k), Option.isSome_none]
    · intro x w hx hwk
      have hnone : dictLookup
          (d.aliases.filter (fun kv => !(pyEq kv.2 k))) x = none :=
        dictLookup_purge_none d.aliases hndA hx hwk
      constructor
      · unfold getItem get_key
        rw [hnone]
      · unfold getAttr getItem get_key
        rw [hnone]
        rfl
  · intro d a ha
    unfold delItem get_key
    rw [ha]

/-- Witness for C5: deleting through the alias `"al"` of key `"k"` removes
the entry and both alias mappings, item and attribute access on `"k"` and
`"al"` fail afterwards, and deleting an unknown name fails. -/
theorem C5_deletion_purges_aliases_witness :
    (delItem
      (⟨[(Py.str ("k"), Py.int 1)],
        [(Py.str ("k"), Py.str ("k")), (Py.str ("al"), Py.str ("k"))], []⟩ :
        CleverDict) (Py.str ("al"))).2 = none ∧
    dictContains
      (delItem
        (⟨[(Py.str ("k"), Py.int 1)],
          [(Py.str ("k"), Py.str ("k")), (Py.str ("al"), Py.str ("k"))], []⟩ :
          CleverDict) (Py.str ("al"))).1.entries (Py.str ("k")) = false ∧
    getItem
      (delItem
        (⟨[(Py.str ("k"), Py.int 1)],
          [(Py.str ("k"), Py.str ("k")), (Py.str ("al"), Py.str ("k"))], []⟩ :
          CleverDict) (Py.str ("al"))).1 (Py.str ("al")) =
      Except.error (PyErr.keyError (Py.str ("al"))) ∧
    getItem
      (delItem
        (⟨[(Py.str ("k"), Py.int 1)],
          [(Py.str ("k"), Py.str ("k")), (Py.str ("al"), Py.str ("k"))], []⟩ :
          CleverDict) (Py.str ("al"))).1 (Py.str ("k")) =
      Except.error (PyErr.keyError (Py.str ("k"))) ∧
    getAttr
      (delItem
        (⟨[(Py.str ("k"), Py.int 1)],
          [(Py.str ("k"), Py.str ("k")), (Py.str ("al"), Py.str ("k"))], []⟩ :
          CleverDict) (Py.str ("al"))).1 (Py.str ("k")) =
      Except.error (PyErr.attributeError (Py.str ("k"))) ∧
    delItem
      (⟨[(Py.str ("k"), Py.int 1)],
        [(Py.str ("k"), Py.str ("k")), (Py.str ("al"), Py.str ("k"))], []⟩ :
        CleverDict) (Py.str ("zz")) =
      (⟨[(Py.str ("k"), Py.int 1)],
        [(Py.str ("k"), Py.str ("k")), (Py.str ("al"), Py.str ("k"))], []⟩,
       some (PyErr.keyError (Py.str ("zz")))) := by
  have h1 := C5_deletion_purges_aliases.1
    (⟨[(Py.str ("k"), Py.int 1)],
      [(Py.str ("k"), Py.str ("k")), (Py.str ("al"), Py.str ("k"))], []⟩ :
      CleverDict) (Py.str ("al")) (Py.str ("k"))
    (by decide) (by decide) (by decide) (by decide)
  have hal := h1.2.2.2 (Py.str ("al")) (Py.str ("k")) (by decide) (by decide)
  have hk := h1.2.2.2 (Py.str ("k")) (Py.str ("k")) (by decide) (by decide)
  exact ⟨h1.1, h1.2.1, hal.1, hk.1, hk.2,
    C5_deletion_purges_aliases.2
      (⟨[(Py.str ("k"), Py.int 1)],
        [(Py.str ("k"), Py.str ("k")), (Py.str ("al"), Py.str ("k"))], []⟩ :
        CleverDict) (Py.str ("zz")) (by decide)⟩

/-- Claim C6: after a successful fresh `set(k, v)`, every alias `a`
derived from `k` under the current expansion flag satisfies
`get(a) == get(k) == v`, and a subsequent `set` through `a` redirects the
write to the canonical key `k`: it succeeds, updates the existing entry in
place, and leaves the list of canonical keys unchanged. -/
theorem C6_alias_transparency (flag : Bool) (d d' : CleverDict)
    (k v w a : Py)
    (h1 : dictLookup d.aliases k = none)
    (h2 : dictContains d.entries k = false)
    (h3 : setItem flag d k v = (d', none))
    (ha : a ∈ name_to_aliases flag k) :
    getItem d' a = Except.ok v ∧
    getItem d' k = Except.ok v ∧
    (setItem flag d' a w).2 = none ∧
    dictKeys (setItem flag d' a w).1.entries = dictKeys d'.entries ∧
    dictLookup (setItem flag d' a w).1.entries k = some w := by
  unfold setItem at h3
  rw [h1] at h3
  simp only [h2, Bool.false_eq_true, if_false] at h3
  rcases hl : addAliasLoop d k (name_to_aliases flag k) with ⟨dl, oe⟩
  rw [hl] at h3
  cases oe with
  | some e => simp at h3
  | none =>
    simp only at h3
    injection h3 with h3a _
    subst h3a
    obtain ⟨p1, _, p3, _⟩ := addAliasLoop_ok _ _ _ hl
    have hda : dictLookup dl.aliases a = some k := p1 a ha
    have hdk : dictLookup dl.aliases k = some k :=
      p1 k (name_to_aliases_mem_self flag k)
    have hev : dictLookup (dictSet dl.entries k v) k = some v :=
      dictLookup_set_eq _ _ (pyEq_refl k)
    refine ⟨?_, ?_, ?_, ?_, ?_⟩
    · unfold getItem get_key
      rw [show ({dl with entries := dictSet dl.entries k v} :
        CleverDict).aliases = dl.aliases from rfl, hda]
      simp only [hev]
    · unfold getItem get_key
      rw [show ({dl with entries := dictSet dl.entries k v} :
        CleverDict).aliases = dl.aliases from rfl, hdk]
      simp only [hev]
    · unfold setItem
      rw [show ({dl with entries := dictSet dl.entries k v} :
        CleverDict).aliases = dl.aliases from rfl, hda]
    · unfold setItem
      rw [show ({dl with entries := dictSet dl.entries k v} :
        CleverDict).aliases = dl.aliases from rfl, hda]
      simp only
      exact dictKeys_set_of_contains _ w (by simp [dictContains, hev])
    · unfold setItem
      rw [show ({dl with entries := dictSet dl.entries k v} :
        CleverDict).aliases = dl.aliases from rfl, hda]
      simp only
      exact dictLookup_set_eq _ _ (pyEq_refl k)

/-- Witness for C6: `set(123, "x")` on an empty container registers the
derived alias `"_123"`; reading through it yields the value, and a write
through it updates the entry of the canonical key `123` in place. -/
theorem C6_alias_transparency_witness :
    getItem
      (⟨[(Py.int 123, Py.str ("x"))],
        [(Py.int 123, Py.int 123), (Py.str ("_123"), Py.int 123)], []⟩ :
        CleverDict) (Py.str ("_123")) = Except.ok (Py.str ("x")) ∧
    getItem
      (⟨[(Py.int 123, Py.str ("x"))],
        [(Py.int 123, Py.int 123), (Py.str ("_123"), Py.int 123)], []⟩ :
        CleverDict) (Py.int 123) = Except.ok (Py.str ("x")) ∧
    (setItem true
      (⟨[(Py.int 123, Py.str ("x"))],
        [(Py.int 123, Py.int 123), (Py.str ("_123"), Py.int 123)], []⟩ :
        CleverDict) (Py.str ("_123")) (Py.str ("y"))).2 = none ∧
    dictKeys (setItem true
      (⟨[(Py.int 123, Py.str ("x"))],
        [(Py.int 123, Py.int 123), (Py.str ("_123"), Py.int 123)], []⟩ :
        CleverDict) (Py.str ("_123")) (Py.str ("y"))).1.entries =
      dictKeys ([(Py.int 123, Py.str ("x"))]) ∧
    dictLookup (setItem true
      (⟨[(Py.int 123, Py.str ("x"))],
        [(Py.int 123, Py.int 123), (Py.str ("_123"), Py.int 123)], []⟩ :
        CleverDict) (Py.str ("_123")) (Py.str ("y"))).1.entries
      (Py.int 123) = some (Py.str ("y")) := by
  exact C6_alias_transparency true ⟨[], [], []⟩
    (⟨[(Py.int 123, Py.str ("x"))],
      [(Py.int 123, Py.int 123), (Py.str ("_123"), Py.int 123)], []⟩ :
      CleverDict)
    (Py.int 123) (Py.str ("x")) (Py.str ("y")) (Py.str ("_123"))
    (by decide) (by decide) (by decide) (by decide)

/-- Claim C10: the constructor does not check that the declared target of
an alias in the `_aliases` argument exists among the constructed entries.
Whenever the update phase succeeds, the alias is not yet taken and the
target `t` is not an entry, construction succeeds and registers the alias
anyway; resolving the alias through the index then succeeds with `t`, but
item access through it raises the entry-store `KeyError` for `t`. -/
theorem C10_dangling_alias_target (flag : Bool) (mapping : List (Py × Py))
    (a t : Py) (varsArg : List (String × Py)) (d0 : CleverDict)
    (h1 : updateLoop false ⟨[], [], []⟩ mapping = (d0, none))
    (h2 : dictLookup d0.aliases a = none)
    (h3 : dictContains d0.entries t = false) :
    (cdInit flag mapping (some [(a, t)]) varsArg).2 = none ∧
    dictLookup (cdInit flag mapping (some [(a, t)]) varsArg).1.aliases a =
      some t ∧
    get_key (cdInit flag mapping (some [(a, t)]) varsArg).1 a =
      Except.ok t ∧
    getItem (cdInit flag mapping (some [(a, t)]) varsArg).1 a =
      Except.error (PyErr.keyError t) := by
  have hinit : cdInit flag mapping (some [(a, t)]) varsArg =
      (varsLoop ({d0 with aliases := dictSet d0.aliases a t}) varsArg,
       none) := by
    unfold cdInit
    dsimp only
    rw [h1]
    simp only [aliasArgLoop, _add_alias_fresh h2]
  obtain ⟨hpe, hpa⟩ :=
    varsLoop_preserves varsArg ({d0 with aliases := dictSet d0.aliases a t})
  have hlook : dictLookup
      (varsLoop ({d0 with aliases := dictSet d0.aliases a t}) varsArg).aliases
      a = some t := by
    rw [hpa]
    exact dictLookup_set_eq _ _ (pyEq_refl a)
  have hent : dictLookup
      (varsLoop ({d0 with aliases := dictSet d0.aliases a t}) varsArg).entries
      t = none := by
    rw [hpe]
    cases hc : dictLookup d0.entries t with
    | none => rfl
    | some v => rw [dictContains, hc] at h3; simp at h3
  rw [hinit]
  refine ⟨rfl, hlook, ?_, ?_⟩
  · unfold get_key
    rw [hlook]
  · unfold getItem get_key
    rw [hlook]
    simp only [hent]

/-- Witness for C10: constructing with items `{"x": 1}` and alias
declaration `{"ghost": "nope"}` succeeds although `"nope"` is not an
entry; `get_key("ghost")` resolves to `"nope"` but `get("ghost")` raises
`KeyError("nope")`. -/
theorem C10_dangling_alias_target_witness :
    (cdInit true [(Py.str ("x"), Py.int 1)]
      (some [(Py.str ("ghost"), Py.str ("nope"))]) []).2 = none ∧
    dictLookup (cdInit true [(Py.str ("x"), Py.int 1)]
      (some [(Py.str ("ghost"), Py.str ("nope"))]) []).1.aliases
      (Py.str ("ghost")) = some (Py.str ("nope")) ∧
    get_key (cdInit true [(Py.str ("x"), Py.int 1)]
      (some [(Py.str ("ghost"), Py.str ("nope"))]) []).1
      (Py.str ("ghost")) = Except.ok (Py.str ("nope")) ∧
    getItem (cdInit true [(Py.str ("x"), Py.int 1)]
      (some [(Py.str ("ghost"), Py.str ("nope"))]) []).1
      (Py.str ("ghost")) = Except.error (PyErr.keyError (Py.str ("nope"))) := by
  exact C10_dangling_alias_target true [(Py.str ("x"), Py.int 1)]
    (Py.str ("ghost")) (Py.str ("nope")) []
    (⟨[(Py.str ("x"), Py.int 1)], [(Py.str ("x"), Py.str ("x"))], []⟩ :
      CleverDict)
    (by decide) (by decide) (by decide)
